import Mathlib

/-!
A shallow embedding of the ACS_Internet pipeline core:

* `src/create_star_schema.py` — `StarSchemaBuilder.create_dimension_tables`
  (codebook/data reconciliation into one dimension table per variable);
* `src/schema/create_star_schema.py` — `StarSchemaBuilder.create_income_groups`
  (fixed-band bucketizer with an `Unknown` fallback);
* `src/analyze_weighted_stats.py` — `create_income_buckets` (quantile bucketing
  with a fixed-band fallback), the `pd.cut` age bucketing, the vectorized
  `calculate_weighted_access_stats`, and `merge_dimension_descriptions`;
* `src/analysis/analyze_weighted_stats.py` — `TechnologyAccessAnalyzer`
  (`calculate_weighted_percentage`, `analyze_by_state`, `analyze_by_education`).

Survey weights and percentages are modelled over `ℚ` (the Python code uses
floats; all claims under study are exact-arithmetic statements).  Machine
behaviour of the pandas/numpy library calls is embedded explicitly: a pandas
sort over a column mixing `int` and `str` raises `TypeError`, an empty
`DataFrame` has no columns (`KeyError` on access), `np.average` raises
`ZeroDivisionError` when the weights sum to zero, and `pd.qcut` with an
explicit 7-label list raises `ValueError` whenever duplicate quantile
boundaries are dropped.
-/

namespace ACS

/-- A dimension code: the codebook stores codes as strings, and
`create_dimension_tables` converts each key with Python `int(...)`, keeping the
string when the conversion fails, so a code is either numeric or symbolic. -/
inductive Code where
  | num : Int → Code
  | sym : String → Code
deriving DecidableEq, Repr

/-- Strip leading and trailing whitespace from a character list (the
whitespace stripping Python `int(...)` performs on its string argument). -/
def trimChars (cs : List Char) : List Char :=
  ((cs.dropWhile Char.isWhitespace).reverse.dropWhile Char.isWhitespace).reverse

/-- Lexicographic comparison of character lists: the Python `<=` on strings. -/
def charListLE : List Char → List Char → Bool
  | [], _ => true
  | _ :: _, [] => false
  | a :: as, b :: bs => a < b || (a = b && charListLE as bs)

/-- Value of a nonempty all-digit character list (helper for `parsePyInt`). -/
def digitsVal (cs : List Char) : Option Nat :=
  if cs.isEmpty then none
  else cs.foldl
    (fun acc c =>
      match acc with
      | none => none
      | some n => if c.isDigit then some (n * 10 + (c.toNat - 48)) else none)
    (some 0)

/-- Model of Python `int(s)` on strings: optional surrounding whitespace,
optional sign, then at least one decimal digit (leading zeros allowed);
anything else raises `ValueError` (modelled as `none`). -/
def parsePyInt (s : String) : Option Int :=
  match trimChars s.toList with
  | '-' :: rest => (digitsVal rest).map (fun n => -(n : Int))
  | '+' :: rest => (digitsVal rest).map (fun n => (n : Int))
  | cs => (digitsVal cs).map (fun n => (n : Int))

/-- `int(code)` with the `ValueError` fallback of `create_dimension_tables`
(lines 146-149 of `src/create_star_schema.py`). -/
def parseCode (s : String) : Code :=
  match parsePyInt s with
  | some n => Code.num n
  | none => Code.sym s

def Code.isNum : Code → Bool
  | Code.num _ => true
  | Code.sym _ => false

def Code.isSym : Code → Bool
  | Code.num _ => false
  | Code.sym _ => true

/-- Comparison used when a homogeneous code column is sorted.  On two numeric
or two symbolic codes it is the Python `<=` of the underlying values; the
cross-kind cases never arise in a sort that succeeds (pandas raises on mixed
columns first), and are fixed arbitrarily as numeric-below-symbolic to make
the relation total. -/
def codeLE (a b : Code) : Prop :=
  match a, b with
  | Code.num x, Code.num y => x ≤ y
  | Code.num _, Code.sym _ => True
  | Code.sym _, Code.num _ => False
  | Code.sym x, Code.sym y => charListLE x.toList y.toList = true

instance : DecidableRel codeLE := fun a b =>
  match a, b with
  | Code.num x, Code.num y => inferInstanceAs (Decidable (x ≤ y))
  | Code.num _, Code.sym _ => inferInstanceAs (Decidable True)
  | Code.sym _, Code.num _ => inferInstanceAs (Decidable False)
  | Code.sym x, Code.sym y =>
      inferInstanceAs (Decidable (charListLE x.toList y.toList = true))

/-- One row of a dimension table: code, label column (`VAR_value`) and the
variable description column (`VAR_desc`). -/
structure DimEntry where
  code : Code
  label : String
  descr : String
deriving DecidableEq, Repr

/-- Order on dimension rows used by `dim_df.sort_values(var_name)`. -/
def entryLE (a b : DimEntry) : Prop := codeLE a.code b.code

instance : DecidableRel entryLE := fun a b =>
  inferInstanceAs (Decidable (codeLE a.code b.code))

/-- The parsed declared codes of a variable definition, in codebook order
(`for code, description in var_info['codes'].items()`). -/
def declCodes (codes : List (String × String)) : List Code :=
  codes.map fun p => parseCode p.1

/-- Rows built from the declared codes (lines 144-155). -/
def dimDeclared (descr : String) (codes : List (String × String)) : List DimEntry :=
  codes.map fun p => ⟨parseCode p.1, p.2, descr⟩

/-- Observed fact-column values that no declared code covers, deduplicated and
sorted ascending (`missing_values = actual_values - defined_values` followed by
`sorted(missing_values)`, lines 160-166).  Fact columns hold numbers. -/
def dimMissing (codes : List (String × String)) (factColumn : List Int) : List Int :=
  List.insertionSort (· ≤ ·)
    ((factColumn.filter fun v => ¬ (Code.num v ∈ declCodes codes)).dedup)

/-- All rows before the final sort: declared rows first, then one synthesized
`Undefined code: <v>` row per uncovered observed value (lines 164-172). -/
def dimAll (descr : String) (codes : List (String × String)) (factColumn : List Int) :
    List DimEntry :=
  dimDeclared descr codes ++
    (dimMissing codes factColumn).map fun v =>
      ⟨Code.num v, "Undefined code: " ++ toString v, descr⟩

/-- A column whose values mix numeric and symbolic codes; sorting such a
column makes pandas compare an `int` with a `str`, which raises. -/
def mixedCodes (l : List Code) : Bool :=
  l.any Code.isNum && l.any Code.isSym

/-- `StarSchemaBuilder.create_dimension_tables` for one variable
(`src/create_star_schema.py` lines 127-180): build rows from the declared
codes, reconcile against the observed fact column, sort by code.  The run
fails with `KeyError` when the definition declares no codes at all
(`dim_df` is then an empty frame without the code column, and line 161
accesses it), and with `TypeError` when the combined code set mixes numeric
and symbolic codes (the `sort_values` comparison between `int` and `str`). -/
def createDimensionTable (descr : String) (codes : List (String × String))
    (factColumn : List Int) : Except String (List DimEntry) :=
  if codes.isEmpty then
    Except.error "KeyError: code column absent from empty frame"
  else if mixedCodes ((dimAll descr codes factColumn).map DimEntry.code) then
    Except.error "TypeError: comparison of str and int unsupported"
  else
    Except.ok (List.insertionSort entryLE (dimAll descr codes factColumn))

/-!
Bucketizers.

`StarSchemaBuilder.create_income_groups` (`src/schema/create_star_schema.py`
lines 99-132) walks an ordered list of inclusive `(lower, upper, label)` bands,
takes the first band containing the value, and defaults to `Unknown`.
`load_and_prepare_data` (`src/analyze_weighted_stats.py` lines 117-124)
instead uses `pd.cut`, whose intervals are left-open and right-closed and
which yields a missing value (`NaN`) outside every interval.
-/

/-- The fixed-band bucketizer of `create_income_groups` /
`create_household_income_groups`: first matching inclusive band, `Unknown`
when no band contains the value. -/
def bandBucket (bands : List (Int × Int × String)) (v : Int) : String :=
  match bands.find? (fun b => decide (b.1 ≤ v) && decide (v ≤ b.2.1)) with
  | some b => b.2.2
  | none => "Unknown"

/-- Age bands in `(lower, upper, label)` form, as in the spec scenario. -/
def ageBands : List (Int × Int × String) :=
  [(0, 18, "0-18"), (19, 25, "19-25"), (26, 35, "26-35"),
   (36, 50, "36-50"), (51, 65, "51-65"), (65, 100, "65+")]

/-- The `pd.cut` age bin edges of `load_and_prepare_data`. -/
def ageBins : List Int := [0, 18, 25, 35, 50, 65, 100]

/-- The `pd.cut` age labels of `load_and_prepare_data`. -/
def ageLabels : List String := ["0-18", "19-25", "26-35", "36-50", "51-65", "65+"]

/-- `pd.cut(v, bins, labels)` with default options: label `i` when
`bins[i] < v ≤ bins[i+1]`, missing (`none`) otherwise. -/
def pdCut (bins : List Int) (labels : List String) (v : Int) : Option String :=
  ((bins.zip bins.tail).zip labels).findSome? fun p =>
    if p.1.1 < v ∧ v ≤ p.1.2 then some p.2 else none

/-!
Quantile income bucketing: `create_income_buckets`
(`src/analyze_weighted_stats.py` lines 24-75).
-/

/-- The seven labels passed to `pd.qcut`. -/
def qcutLabels : List String :=
  ["Very Low Income", "Low Income", "Lower Middle", "Middle",
   "Upper Middle", "High", "Very High"]

/-- The `except` fallback: `pd.cut` over the fixed bins
`[-inf, 0, 20000, 40000, 60000, 100000, inf]` (lines 71-75).  Every value
falls in exactly one of the six right-closed intervals. -/
def fallbackBand (v : ℚ) : String :=
  if v ≤ 0 then "No Income"
  else if v ≤ 20000 then "Very Low"
  else if v ≤ 40000 then "Low"
  else if v ≤ 60000 then "Middle"
  else if v ≤ 100000 then "High"
  else "Very High"

/-- The `k/n` quantile of an ascending nonempty list, by the linear
interpolation rule numpy uses: position `p = (k/n)(m-1)`, value
`xs[⌊p⌋] + (p-⌊p⌋)(xs[⌊p⌋+1]-xs[⌊p⌋])`.  Since `k`, `m-1` and `n` are
naturals, `⌊p⌋` is the integer quotient `k(m-1)/n` and the fractional part is
`(k(m-1) mod n)/n`. -/
def quantileEdge (xs : List ℚ) (k n : ℕ) : ℚ :=
  xs.getD (k * (xs.length - 1) / n) 0 +
    ((k * (xs.length - 1) % n : ℕ) : ℚ) / (n : ℚ) *
      (xs.getD (k * (xs.length - 1) / n + 1) (xs.getD (k * (xs.length - 1) / n) 0) -
        xs.getD (k * (xs.length - 1) / n) 0)

/-- The eight bin edges `pd.qcut(positive, q=7)` computes: quantiles `k/7`,
`k = 0..7`, of the sorted positive values. -/
def qcutEdges (pos : List ℚ) : List ℚ :=
  let s := List.insertionSort (· ≤ ·) pos
  (List.range 8).map fun k => quantileEdge s k 7

/-- Strict ascent of the edge list.  `pd.qcut(..., duplicates='drop')` drops
equal edges, so with its fixed 7-label list it raises `ValueError` exactly
when this is false. -/
def strictlyIncreasing (l : List ℚ) : Bool :=
  (l.zip l.tail).all fun p => decide (p.1 < p.2)

/-- Bin assignment of a successful `pd.qcut`: the first right edge at or above
the value names the bucket (the lowest edge is included in the first bin);
values outside the edge range would be missing, which cannot happen for the
values the quantiles were computed from. -/
def qcutAssign (edges : List ℚ) (v : ℚ) : Option String :=
  (edges.tail.zip qcutLabels).findSome? fun p =>
    if v ≤ p.1 then some p.2 else none

/-- The clipped-positive subset `income_data[income_data > 0]` after
`income_data.clip(lower=0)`. -/
def posOf (incomes : List ℚ) : List ℚ :=
  (incomes.map fun v => max v 0).filter fun v => decide (0 < v)

/-- `create_income_buckets` (lines 24-75): clip at 0; with no positive value
every row is `No Income`; otherwise try `pd.qcut` on the positive subset —
when its edges are distinct, zeros get `No Income` and positive values their
quantile bucket, and when duplicate edges make `pd.qcut` raise (its label list
no longer matches the bins), the caught exception routes every row through the
fixed fallback bands instead. -/
def createIncomeBuckets (incomes : List ℚ) : List String :=
  if (posOf incomes).isEmpty then
    (incomes.map fun v => max v 0).map fun _ => "No Income"
  else if strictlyIncreasing (qcutEdges (posOf incomes)) then
    (incomes.map fun v => max v 0).map fun v =>
      if v = 0 then "No Income"
      else (qcutAssign (qcutEdges (posOf incomes)) v).getD "nan"
  else
    (incomes.map fun v => max v 0).map fallbackBand

/-!
Weighted aggregation, vectorized form: `calculate_weighted_access_stats`
(`src/analyze_weighted_stats.py` lines 136-166), with
`merge_dimension_descriptions` (lines 168-192).
-/

/-- A fact row as the vectorized aggregation sees it: a grouping code, a
survey weight, and the access code of the condition column. -/
structure SRow where
  group : Int
  weight : ℚ
  access : Int
deriving DecidableEq, Repr

/-- One output record of `calculate_weighted_access_stats`, after the rename
to `dimension_value`, `population_estimate`, `internet_percentage`. -/
structure GStat where
  dimensionValue : Int
  populationEstimate : ℚ
  internetPercentage : ℚ
deriving DecidableEq, Repr

/-- Sequencing of per-group computations that can raise: the first raised
exception aborts the whole aggregation, as in pandas `groupby().agg`. -/
def exceptMapM (f : α → Except String β) : List α → Except String (List β)
  | [] => Except.ok []
  | a :: t =>
    match f a with
    | Except.error e => Except.error e
    | Except.ok b =>
      match exceptMapM f t with
      | Except.error e => Except.error e
      | Except.ok bs => Except.ok (b :: bs)

/-- The rows of one group. -/
def groupRows (rows : List SRow) (g : Int) : List SRow :=
  rows.filter fun r => r.group == g

/-- The per-group aggregation: `PERWT` summed for the population estimate, and
`np.average(x == 1, weights=...)` (scaled to 0-100 afterwards) for the
percentage.  `np.average` raises `ZeroDivisionError` when the weights sum
to zero. -/
def groupStat (rows : List SRow) (g : Int) : Except String GStat :=
  if ((groupRows rows g).map SRow.weight).sum = 0 then
    Except.error "ZeroDivisionError: weights sum to zero"
  else
    Except.ok
      ⟨g, ((groupRows rows g).map SRow.weight).sum,
        (((groupRows rows g).filter fun r => r.access == 1).map SRow.weight).sum /
          ((groupRows rows g).map SRow.weight).sum * 100⟩

/-- The distinct group keys in ascending order, as `groupby` (with its default
`sort=True`) enumerates them. -/
def groupKeys (rows : List SRow) : List Int :=
  List.insertionSort (· ≤ ·) (rows.map SRow.group).dedup

/-- Descending order on the percentage column. -/
def pctGE (a b : GStat) : Prop := b.internetPercentage ≤ a.internetPercentage

instance : DecidableRel pctGE := fun a b =>
  inferInstanceAs (Decidable (b.internetPercentage ≤ a.internetPercentage))

/-- `sort_values('internet_percentage', ascending=False)`. -/
def sortByPctDesc (stats : List GStat) : List GStat :=
  List.insertionSort pctGE stats

/-- `calculate_weighted_access_stats` (lines 136-166). -/
def calculateWeightedAccessStats (rows : List SRow) : Except String (List GStat) :=
  match exceptMapM (groupStat rows) (groupKeys rows) with
  | Except.error e => Except.error e
  | Except.ok stats => Except.ok (sortByPctDesc stats)

/-- A row of a loaded dimension table restricted to its code and label
columns, as `merge_dimension_descriptions` selects them. -/
structure DimLookup where
  code : Int
  value : String
deriving DecidableEq, Repr

/-- `pd.merge(stats, dim, left_on='dimension_value', right_on=code, how='left')`:
every statistics row is kept, matched dimension rows contribute their label
(one output row per match), and an unmatched statistics row keeps a null
label. -/
def leftJoinStats (stats : List GStat) (dim : List DimLookup) : List (GStat × Option String) :=
  stats.flatMap fun s =>
    if (dim.filter fun d => d.code == s.dimensionValue) = [] then [(s, none)]
    else (dim.filter fun d => d.code == s.dimensionValue).map fun d => (s, some d.value)

/-- `merge_dimension_descriptions` (lines 168-192): bucket dimensions and
dimension tables without a label column pass the statistics through unchanged
(no label); otherwise the statistics are left-joined to the dimension table. -/
def mergeDimensionDescriptions (isBucket hasValueCol : Bool) (stats : List GStat)
    (dim : List DimLookup) : List (GStat × Option String) :=
  if !isBucket && hasValueCol then leftJoinStats stats dim
  else stats.map fun s => (s, none)

/-!
Weighted aggregation, analyzer form: `TechnologyAccessAnalyzer`
(`src/analysis/analyze_weighted_stats.py`).
-/

/-- A fact row as the analyzer sees it: state and education codes, the person
weight, and the internet and smartphone access codes. -/
structure ARow where
  statefip : Int
  educ : Int
  perwt : ℚ
  cinethh : Int
  cismrtphn : Int
deriving DecidableEq, Repr

/-- `fact_df[fact_df['CINETHH'] != 9]` (line 57): drop the missing-data
sentinel from the internet condition column. -/
def validInternet (rows : List ARow) : List ARow :=
  rows.filter fun r => r.cinethh != 9

/-- `fact_df[fact_df['CISMRTPHN'] != 9]` (line 58). -/
def validSmartphone (rows : List ARow) : List ARow :=
  rows.filter fun r => r.cismrtphn != 9

/-- `TechnologyAccessAnalyzer.calculate_weighted_percentage` (lines 65-82):
zero total weight returns 0; otherwise the condition-satisfying weight share,
scaled to 0-100.  The condition column is a selector on the row. -/
def calculateWeightedPercentage (rows : List ARow) (cond : ARow → Int)
    (condValue : Int) : ℚ :=
  let totalWeight := (rows.map ARow.perwt).sum
  if totalWeight = 0 then 0
  else ((rows.filter fun r => cond r == condValue).map ARow.perwt).sum
    / totalWeight * 100

/-- One record of the `analyze_by_state` loop. -/
structure StateStat where
  statefip : Int
  internetPct : ℚ
  smartphonePct : ℚ
  populationEstimate : ℚ
deriving DecidableEq, Repr

/-- The record-building loop of `analyze_by_state` (lines 84-107): for each
dimension code, a record is appended only when both the internet-valid and the
smartphone-valid subsets have at least one row for that code; the population
estimate is the weight sum of the internet-valid group. -/
def stateStats (fact : List ARow) (dimCodes : List Int) : List StateStat :=
  dimCodes.filterMap fun c =>
    if ((validInternet fact).filter fun r => r.statefip == c).isEmpty
        || ((validSmartphone fact).filter fun r => r.statefip == c).isEmpty then
      none
    else
      some ⟨c,
        calculateWeightedPercentage
          ((validInternet fact).filter fun r => r.statefip == c) ARow.cinethh 1,
        calculateWeightedPercentage
          ((validSmartphone fact).filter fun r => r.statefip == c) ARow.cismrtphn 1,
        (((validInternet fact).filter fun r => r.statefip == c).map ARow.perwt).sum⟩

/-- One record of the `analyze_by_education` loop. -/
structure EducStat where
  educ : Int
  internetPct : ℚ
  smartphonePct : ℚ
  populationEstimate : ℚ
deriving DecidableEq, Repr

/-- The record-building loop of `analyze_by_education` (lines 117-140); the
codes are visited in `sorted(...)` order. -/
def educStats (fact : List ARow) (dimCodes : List Int) : List EducStat :=
  (List.insertionSort (· ≤ ·) dimCodes).filterMap fun c =>
    if ((validInternet fact).filter fun r => r.educ == c).isEmpty
        || ((validSmartphone fact).filter fun r => r.educ == c).isEmpty then
      none
    else
      some ⟨c,
        calculateWeightedPercentage
          ((validInternet fact).filter fun r => r.educ == c) ARow.cinethh 1,
        calculateWeightedPercentage
          ((validSmartphone fact).filter fun r => r.educ == c) ARow.cismrtphn 1,
        (((validInternet fact).filter fun r => r.educ == c).map ARow.perwt).sum⟩

/-- The four-row fact relation of the spec's concrete scenario 1:
`(weight, condition) = (10,1), (10,0), (5,1), (5,9)`, carried in the
`PERWT`/`CINETHH` columns. -/
def scenarioRows : List ARow :=
  [⟨1, 0, 10, 1, 0⟩, ⟨1, 0, 10, 0, 0⟩, ⟨1, 0, 5, 1, 0⟩, ⟨1, 0, 5, 9, 0⟩]

/-! Order properties of the code comparison, needed to reason about the sort. -/

theorem charListLE_total : ∀ a b : List Char, charListLE a b = true ∨ charListLE b a = true := by
  intro a
  induction a with
  | nil => intro b; exact Or.inl rfl
  | cons x xs ih =>
    intro b
    cases b with
    | nil => exact Or.inr rfl
    | cons y ys =>
      simp only [charListLE, Bool.or_eq_true, Bool.and_eq_true, decide_eq_true_eq]
      rcases lt_trichotomy x y with h | h | h
      · exact Or.inl (Or.inl h)
      · subst h
        rcases ih ys with h2 | h2
        · exact Or.inl (Or.inr ⟨rfl, h2⟩)
        · exact Or.inr (Or.inr ⟨rfl, h2⟩)
      · exact Or.inr (Or.inl h)

theorem charListLE_trans :
    ∀ a b c : List Char, charListLE a b = true → charListLE b c = true →
      charListLE a c = true := by
  intro a
  induction a with
  | nil => intro b c _ _; rfl
  | cons x xs ih =>
    intro b c h1 h2
    cases b with
    | nil => simp [charListLE] at h1
    | cons y ys =>
      cases c with
      | nil => simp [charListLE] at h2
      | cons z zs =>
        simp only [charListLE, Bool.or_eq_true, Bool.and_eq_true,
          decide_eq_true_eq] at h1 h2 ⊢
        rcases h1 with h1 | ⟨rfl, h1⟩
        · rcases h2 with h2 | ⟨rfl, h2⟩
          · exact Or.inl (lt_trans h1 h2)
          · exact Or.inl h1
        · rcases h2 with h2 | ⟨rfl, h2⟩
          · exact Or.inl h2
          · exact Or.inr ⟨rfl, ih ys zs h1 h2⟩

instance : IsTotal Code codeLE where
  total a b := by
    match a, b with
    | Code.num x, Code.num y => exact Int.le_total x y
    | Code.num _, Code.sym _ => exact Or.inl trivial
    | Code.sym _, Code.num _ => exact Or.inr trivial
    | Code.sym x, Code.sym y => exact charListLE_total x.toList y.toList

instance : IsTrans Code codeLE where
  trans a b c h1 h2 := by
    match a, b, c with
    | Code.num x, Code.num y, Code.num z => exact le_trans h1 h2
    | Code.num _, Code.num _, Code.sym _ => exact trivial
    | Code.num _, Code.sym _, Code.num _ => exact h2.elim
    | Code.num _, Code.sym _, Code.sym _ => exact trivial
    | Code.sym _, Code.num _, Code.num _ => exact h1.elim
    | Code.sym _, Code.num _, Code.sym _ => exact h1.elim
    | Code.sym _, Code.sym _, Code.num _ => exact h2.elim
    | Code.sym x, Code.sym y, Code.sym z =>
      exact charListLE_trans x.toList y.toList z.toList h1 h2

instance : IsTotal DimEntry entryLE where
  total a b := IsTotal.total (r := codeLE) a.code b.code

instance : IsTrans DimEntry entryLE where
  trans a b c h1 h2 := IsTrans.trans (r := codeLE) a.code b.code c.code h1 h2

/-! Shared facts about the reconciliation pieces. -/

theorem dimAll_map_code (descr : String) (codes : List (String × String))
    (factColumn : List Int) :
    (dimAll descr codes factColumn).map DimEntry.code =
      declCodes codes ++ (dimMissing codes factColumn).map Code.num := by
  simp [dimAll, dimDeclared, declCodes, List.map_map, Function.comp_def]

theorem mem_dimMissing {codes : List (String × String)} {factColumn : List Int}
    {v : Int} :
    v ∈ dimMissing codes factColumn ↔
      v ∈ factColumn ∧ Code.num v ∉ declCodes codes := by
  unfold dimMissing
  rw [(List.perm_insertionSort _ _).mem_iff, List.mem_dedup, List.mem_filter]
  simp

theorem nodup_dimMissing (codes : List (String × String)) (factColumn : List Int) :
    (dimMissing codes factColumn).Nodup :=
  ((List.perm_insertionSort _ _).nodup_iff).mpr (List.nodup_dedup _)

/-- C1 (amended): for every variable definition that declares at least one
code, whose declared keys parse to pairwise distinct codes, and whose
reconciled code set does not mix numeric with symbolic codes, the dimension
table is built and its codes are exactly the union of the parsed declared
codes and the observed fact-column codes, each exactly once; and the concrete
scenario — declared `1:Yes, 2:No`, observed `1,2,3` — yields three entries,
the third synthesized as `Undefined code: 3`.  (The claim fails without the
three hypotheses: an empty definition raises `KeyError`, key pairs such as
`"1"`/`"01"` parse to the same code and duplicate it, and a mixed code set
makes the final sort raise `TypeError`.) -/
theorem createDimensionTable_reconciliation :
    (∀ (descr : String) (codes : List (String × String)) (factColumn : List Int),
      codes ≠ [] →
      (declCodes codes).Nodup →
      mixedCodes ((dimAll descr codes factColumn).map DimEntry.code) = false →
      ∃ entries, createDimensionTable descr codes factColumn = Except.ok entries ∧
        (∀ c : Code, c ∈ entries.map DimEntry.code ↔
          (c ∈ declCodes codes ∨ ∃ v ∈ factColumn, c = Code.num v)) ∧
        (entries.map DimEntry.code).Nodup) ∧
    createDimensionTable "Var" [("1", "Yes"), ("2", "No")] [1, 2, 3] =
      Except.ok [⟨Code.num 1, "Yes", "Var"⟩, ⟨Code.num 2, "No", "Var"⟩,
        ⟨Code.num 3, "Undefined code: 3", "Var"⟩] := by
  constructor
  · intro descr codes factColumn hne hnodup hmix
    have hempty : codes.isEmpty = false := by
      cases codes with
      | nil => exact absurd rfl hne
      | cons a t => rfl
    have hperm :
        List.Perm
          ((List.insertionSort entryLE (dimAll descr codes factColumn)).map DimEntry.code)
          ((dimAll descr codes factColumn).map DimEntry.code) :=
      (List.perm_insertionSort _ _).map _
    refine ⟨List.insertionSort entryLE (dimAll descr codes factColumn), ?_, ?_, ?_⟩
    · simp [createDimensionTable, hempty, hmix]
    · intro c
      rw [hperm.mem_iff, dimAll_map_code, List.mem_append]
      constructor
      · rintro (hc | hc)
        · exact Or.inl hc
        · rcases List.mem_map.mp hc with ⟨v, hv, rfl⟩
          exact Or.inr ⟨v, (mem_dimMissing.mp hv).1, rfl⟩
      · rintro (hc | ⟨v, hv, rfl⟩)
        · exact Or.inl hc
        · by_cases hd : Code.num v ∈ declCodes codes
          · exact Or.inl hd
          · exact Or.inr (List.mem_map_of_mem _ (mem_dimMissing.mpr ⟨hv, hd⟩))
    · rw [hperm.nodup_iff, dimAll_map_code, List.nodup_append]
      refine ⟨hnodup, (nodup_dimMissing _ _).map ?_, ?_⟩
      · intro a b hab
        simpa using hab
      · intro c hc hcm
        rcases List.mem_map.mp hcm with ⟨v, hv, rfl⟩
        exact (mem_dimMissing.mp hv).2 hc
  · rfl

/-- C1 witness: the general reconciliation statement applied to the concrete
scenario inputs. -/
theorem createDimensionTable_reconciliation_witness :
    ∃ entries,
      createDimensionTable "Var" [("1", "Yes"), ("2", "No")] [1, 2, 3] =
        Except.ok entries ∧
      (∀ c : Code, c ∈ entries.map DimEntry.code ↔
        (c ∈ declCodes [("1", "Yes"), ("2", "No")] ∨
          ∃ v ∈ [(1 : Int), 2, 3], c = Code.num v)) ∧
      (entries.map DimEntry.code).Nodup :=
  createDimensionTable_reconciliation.1 "Var" [("1", "Yes"), ("2", "No")] [1, 2, 3]
    (by decide) (by decide) (by decide)

/-- C1 counterexample: the codebook keys `"1"` and `"01"` are distinct strings
but both parse to the numeric code 1, so the built table carries the code 1
twice — the claim that every code of the union appears exactly once fails as
stated. -/
theorem createDimensionTable_dup_counterexample :
    (createDimensionTable "d" [("1", "Yes"), ("01", "Dup")] [1]).toOption.map
        (fun es => es.map DimEntry.code) = some [Code.num 1, Code.num 1] ∧
    ¬ ([Code.num 1, Code.num 1] : List Code).Nodup :=
  ⟨rfl, by decide⟩

/-- C6 (amended): every dimension table the reconciliation succeeds in
building is sorted ascending by code (numeric codes numerically, symbolic
codes lexicographically); but when the code set mixes numeric and symbolic
codes the sort raises a `TypeError` instead of ordering numeric codes before
symbolic ones. -/
theorem createDimensionTable_sorted :
    (∀ (descr : String) (codes : List (String × String)) (factColumn : List Int)
      (entries : List DimEntry),
      createDimensionTable descr codes factColumn = Except.ok entries →
      List.Sorted entryLE entries) ∧
    (∀ (descr : String) (codes : List (String × String)) (factColumn : List Int),
      codes ≠ [] →
      mixedCodes ((dimAll descr codes factColumn).map DimEntry.code) = true →
      createDimensionTable descr codes factColumn =
        Except.error "TypeError: comparison of str and int unsupported") := by
  constructor
  · intro descr codes factColumn entries h
    unfold createDimensionTable at h
    split at h
    · exact absurd h (by simp)
    · split at h
      · exact absurd h (by simp)
      · rw [Except.ok.injEq] at h
        rw [← h]
        exact List.sorted_insertionSort entryLE _
  · intro descr codes factColumn hne hmix
    have hempty : codes.isEmpty = false := by
      cases codes with
      | nil => exact absurd rfl hne
      | cons a t => rfl
    simp [createDimensionTable, hempty, hmix]

/-- C6 witness: the sortedness statement applied to the concrete scenario
table. -/
theorem createDimensionTable_sorted_witness :
    List.Sorted entryLE [⟨Code.num 1, "Yes", "Var"⟩, ⟨Code.num 2, "No", "Var"⟩,
      ⟨Code.num 3, "Undefined code: 3", "Var"⟩] :=
  createDimensionTable_sorted.1 "Var" [("1", "Yes"), ("2", "No")] [1, 2, 3] _ rfl

/-- C6 counterexample: a definition declaring the numeric code 1 and the
symbolic code `a` makes the sort compare an `int` with a `str`, which raises —
the claimed numeric-before-symbolic total order does not happen. -/
theorem createDimensionTable_mixed_counterexample :
    createDimensionTable "d" [("1", "One"), ("a", "A")] [] =
      Except.error "TypeError: comparison of str and int unsupported" := rfl

/-! Weighted-percentage facts shared by several claims. -/

theorem calculateWeightedPercentage_zero (rows : List ARow) (cond : ARow → Int)
    (condValue : Int) (h : (rows.map ARow.perwt).sum = 0) :
    calculateWeightedPercentage rows cond condValue = 0 := by
  simp [calculateWeightedPercentage, h]

theorem calculateWeightedPercentage_formula_aux (rows : List ARow)
    (cond : ARow → Int) (condValue : Int) (h : (rows.map ARow.perwt).sum ≠ 0) :
    calculateWeightedPercentage rows cond condValue =
      100 * ((rows.filter fun r => cond r == condValue).map ARow.perwt).sum /
        (rows.map ARow.perwt).sum := by
  simp only [calculateWeightedPercentage]
  rw [if_neg h]
  ring

theorem sum_perwt_of_unit {rows : List ARow} (h : ∀ r ∈ rows, r.perwt = 1) :
    (rows.map ARow.perwt).sum = rows.length := by
  induction rows with
  | nil => simp
  | cons a t ih =>
    simp only [List.map_cons, List.sum_cons, List.length_cons]
    rw [h a (by simp), ih fun r hr => h r (by simp [hr])]
    push_cast
    ring

/-- C2 (amended): `calculate_weighted_percentage` returns 0 for a group whose
total weight is zero, and any record the state loop emits for such a group
carries percentage 0 and population estimate 0; but the vectorized groupby
implementation (`calculate_weighted_access_stats`) instead raises a
zero-division error from `np.average` on a zero-weight group, so the
returns-zero policy does not hold for every exposed implementation. -/
theorem zero_weight_policy :
    (∀ (rows : List ARow) (cond : ARow → Int) (condValue : Int),
      (rows.map ARow.perwt).sum = 0 →
      calculateWeightedPercentage rows cond condValue = 0) ∧
    (∀ (fact : List ARow) (dimCodes : List Int), ∀ s ∈ stateStats fact dimCodes,
      (((validInternet fact).filter fun r => r.statefip == s.statefip).map
        ARow.perwt).sum = 0 →
      s.internetPct = 0 ∧ s.populationEstimate = 0) := by
  constructor
  · exact calculateWeightedPercentage_zero
  · intro fact dimCodes s hs hz
    rcases List.mem_filterMap.mp hs with ⟨c, _, hsome⟩
    split at hsome
    · exact absurd hsome (by simp)
    · rw [Option.some.injEq] at hsome
      subst hsome
      exact ⟨calculateWeightedPercentage_zero _ _ _ hz, hz⟩

/-- C2 witness: the class implementation at a one-row group of weight zero. -/
theorem zero_weight_policy_witness :
    calculateWeightedPercentage [⟨1, 1, 0, 1, 1⟩] ARow.cinethh 1 = 0 :=
  zero_weight_policy.1 [⟨1, 1, 0, 1, 1⟩] ARow.cinethh 1 (by simp)

/-- C2 counterexample: a single group whose only row has weight 0 makes the
vectorized aggregation raise (`np.average` cannot normalize zero weights)
instead of returning percentage 0. -/
theorem groupby_zero_weight_counterexample :
    calculateWeightedAccessStats [⟨1, 0, 1⟩] =
      Except.error "ZeroDivisionError: weights sum to zero" := by
  norm_num [calculateWeightedAccessStats, exceptMapM, groupStat, groupRows,
    groupKeys, sortByPctDesc, List.insertionSort, List.orderedInsert, List.dedup]

/-- C3: with nonzero total weight the weighted percentage is exactly
`100 · (weight of condition rows) / (total weight)`; with unit weights it is
exactly the unweighted fraction of condition rows, scaled to 0-100; and on the
four-row scenario, filtering the sentinel row 9 gives total weight 25,
condition weight 15, percentage 60. -/
theorem weightedPercentage_formula :
    (∀ (rows : List ARow) (cond : ARow → Int) (condValue : Int),
      (rows.map ARow.perwt).sum ≠ 0 →
      calculateWeightedPercentage rows cond condValue =
        100 * ((rows.filter fun r => cond r == condValue).map ARow.perwt).sum /
          (rows.map ARow.perwt).sum) ∧
    (∀ (rows : List ARow) (cond : ARow → Int) (condValue : Int),
      rows ≠ [] → (∀ r ∈ rows, r.perwt = 1) →
      calculateWeightedPercentage rows cond condValue =
        100 * ((rows.filter fun r => cond r == condValue).length : ℚ) /
          (rows.length : ℚ)) ∧
    ((validInternet scenarioRows).map ARow.perwt).sum = 25 ∧
    (((validInternet scenarioRows).filter fun r => r.cinethh == 1).map
      ARow.perwt).sum = 15 ∧
    calculateWeightedPercentage (validInternet scenarioRows) ARow.cinethh 1 = 60 := by
  refine ⟨calculateWeightedPercentage_formula_aux, ?_, ?_, ?_, ?_⟩
  · intro rows cond condValue hne h1
    have hlen : (rows.map ARow.perwt).sum = rows.length := sum_perwt_of_unit h1
    have hflen :
        ((rows.filter fun r => cond r == condValue).map ARow.perwt).sum =
          (rows.filter fun r => cond r == condValue).length :=
      sum_perwt_of_unit fun r hr => h1 r (List.mem_of_mem_filter hr)
    have hz : (rows.map ARow.perwt).sum ≠ 0 := by
      rw [hlen]
      exact_mod_cast Nat.cast_ne_zero.mpr
        (fun h0 => hne (List.length_eq_zero.mp h0))
    rw [calculateWeightedPercentage_formula_aux rows cond condValue hz, hlen, hflen]
  · norm_num [validInternet, scenarioRows]
  · norm_num [validInternet, scenarioRows]
  · norm_num [calculateWeightedPercentage, validInternet, scenarioRows]

/-- C3 witness: the unit-weight statement at a concrete two-row group. -/
theorem weightedPercentage_formula_witness :
    calculateWeightedPercentage [⟨1, 0, 1, 1, 0⟩, ⟨1, 0, 1, 0, 0⟩] ARow.cinethh 1 =
      100 * ((([⟨1, 0, 1, 1, 0⟩, ⟨1, 0, 1, 0, 0⟩] : List ARow).filter
          fun r => ARow.cinethh r == 1).length : ℚ) /
        (([⟨1, 0, 1, 1, 0⟩, ⟨1, 0, 1, 0, 0⟩] : List ARow).length : ℚ) :=
  weightedPercentage_formula.2.1 [⟨1, 0, 1, 1, 0⟩, ⟨1, 0, 1, 0, 0⟩] ARow.cinethh 1
    (by simp)
    (by intro r hr; simp at hr; rcases hr with rfl | rfl <;> rfl)

/-- C4 (amended): the fixed-band bucketizer yields exactly one label for every
input, out-of-band values (including negatives, which are not clamped)
resolving to the `Unknown` sentinel, so the scenario ages map to
`[Unknown, 0-18, 0-18, 19-25, 65+, Unknown]`; the `pd.cut` age bucketing used
by `load_and_prepare_data` instead leaves values at or below the lowest edge
and above the highest edge without any label. -/
theorem bandBucket_total :
    (∀ (bands : List (Int × Int × String)) (v : Int),
      bandBucket bands v = "Unknown" ∨
        bandBucket bands v ∈ bands.map fun b => b.2.2) ∧
    [-5, 0, 18, 19, 100, 999].map (bandBucket ageBands) =
      ["Unknown", "0-18", "0-18", "19-25", "65+", "Unknown"] ∧
    [-5, 0, 999].map (pdCut ageBins ageLabels) = [none, none, none] := by
  refine ⟨?_, rfl, rfl⟩
  intro bands v
  rcases h : bands.find? (fun b => decide (b.1 ≤ v) && decide (v ≤ b.2.1)) with _ | b
  · exact Or.inl (by simp [bandBucket, h])
  · refine Or.inr ?_
    have hb : bandBucket bands v = b.2.2 := by simp [bandBucket, h]
    rw [hb]
    exact List.mem_map_of_mem _ (List.mem_of_find?_eq_some h)

/-- C4 counterexample: the claimed bucket list (with the negative age clamped
into `0-18`) matches neither bucketizer — the band walk sends −5 to `Unknown`,
and `pd.cut` leaves −5, 0 and 999 unlabelled. -/
theorem age_bucket_counterexample :
    ¬ ([-5, 0, 18, 19, 100, 999].map (bandBucket ageBands) =
        ["0-18", "0-18", "0-18", "19-25", "65+", "Unknown"]) ∧
    ¬ ([-5, 0, 18, 19, 100, 999].map (pdCut ageBins ageLabels) =
        [some "0-18", some "0-18", some "0-18", some "19-25", some "65+",
          some "Unknown"]) := by
  exact ⟨by decide, by decide⟩

/-! Facts about the groupby aggregation, shared across claims. -/

theorem exceptMapM_ok_mem {α β : Type} {f : α → Except String β} :
    ∀ {l : List α} {bs : List β}, exceptMapM f l = Except.ok bs →
      ∀ b ∈ bs, ∃ a ∈ l, f a = Except.ok b := by
  intro l
  induction l with
  | nil =>
    intro bs h b hb
    simp only [exceptMapM, Except.ok.injEq] at h
    subst h
    simp at hb
  | cons a t ih =>
    intro bs h b hb
    cases h1 : f a with
    | error e => simp [exceptMapM, h1] at h
    | ok b0 =>
      cases h2 : exceptMapM f t with
      | error e => simp [exceptMapM, h1, h2] at h
      | ok bs0 =>
        simp only [exceptMapM, h1, h2, Except.ok.injEq] at h
        subst h
        rcases List.mem_cons.mp hb with rfl | hb2
        · exact ⟨a, by simp, h1⟩
        · rcases ih h2 b hb2 with ⟨a2, ha2, hfa2⟩
          exact ⟨a2, by simp [ha2], hfa2⟩

/-- C7: every emitted record's population estimate is the weight sum over all
rows of its group in the aggregation input, not only the condition-satisfying
rows — both in the vectorized groupby aggregation and in the analyzer's state
loop (whose aggregation input is the internet-valid subset). -/
theorem populationEstimate_eq :
    (∀ (rows : List SRow) (stats : List GStat),
      calculateWeightedAccessStats rows = Except.ok stats →
      ∀ s ∈ stats, s.populationEstimate =
        ((rows.filter fun r => r.group == s.dimensionValue).map SRow.weight).sum) ∧
    (∀ (fact : List ARow) (dimCodes : List Int), ∀ s ∈ stateStats fact dimCodes,
      s.populationEstimate =
        (((validInternet fact).filter fun r => r.statefip == s.statefip).map
          ARow.perwt).sum) := by
  constructor
  · intro rows stats h s hs
    unfold calculateWeightedAccessStats at h
    cases h2 : exceptMapM (groupStat rows) (groupKeys rows) with
    | error e => rw [h2] at h; exact absurd h (by simp)
    | ok stats0 =>
      rw [h2] at h
      simp only [Except.ok.injEq] at h
      subst h
      have hs0 : s ∈ stats0 :=
        (List.perm_insertionSort pctGE stats0).mem_iff.mp hs
      rcases exceptMapM_ok_mem h2 s hs0 with ⟨g, _, hg⟩
      unfold groupStat at hg
      split at hg
      · exact absurd hg (by simp)
      · rw [Except.ok.injEq] at hg
        rw [← hg]
        rfl
  · intro fact dimCodes s hs
    rcases List.mem_filterMap.mp hs with ⟨c, _, hsome⟩
    split at hsome
    · exact absurd hsome (by simp)
    · rw [Option.some.injEq] at hsome
      subst hsome
      rfl

/-- C7 witness: the groupby statement at a two-row single-group input. -/
theorem populationEstimate_eq_witness :
    (⟨1, 5, 40⟩ : GStat).populationEstimate =
      ((([⟨1, 2, 1⟩, ⟨1, 3, 0⟩] : List SRow).filter
        fun r => r.group == (⟨1, 5, 40⟩ : GStat).dimensionValue).map
          SRow.weight).sum :=
  populationEstimate_eq.1 [⟨1, 2, 1⟩, ⟨1, 3, 0⟩] [⟨1, 5, 40⟩]
    (by norm_num [calculateWeightedAccessStats, exceptMapM, groupStat, groupRows,
      groupKeys, sortByPctDesc, List.insertionSort, List.orderedInsert,
      List.dedup])
    ⟨1, 5, 40⟩ (by simp)

/-- C8: merging labels never loses a statistics row — under both branches of
`merge_dimension_descriptions` every statistics row survives into the output,
and in the left join a row without a matching dimension entry is kept with a
null label. -/
theorem merge_preserves_groups :
    ∀ (stats : List GStat) (dim : List DimLookup) (s : GStat), s ∈ stats →
      (∀ isBucket hasValueCol : Bool,
        s ∈ (mergeDimensionDescriptions isBucket hasValueCol stats dim).map
          Prod.fst) ∧
      ((dim.filter fun d => d.code == s.dimensionValue) = [] →
        (s, (none : Option String)) ∈ leftJoinStats stats dim) := by
  intro stats dim s hs
  constructor
  · intro isBucket hasValueCol
    unfold mergeDimensionDescriptions
    split
    · rcases hf : dim.filter (fun d => d.code == s.dimensionValue) with _ | ⟨d, ds⟩
      · refine List.mem_map.mpr ⟨(s, none), List.mem_flatMap.mpr ⟨s, hs, ?_⟩, rfl⟩
        rw [if_pos hf]
        simp
      · refine List.mem_map.mpr
          ⟨(s, some d.value), List.mem_flatMap.mpr ⟨s, hs, ?_⟩, rfl⟩
        rw [if_neg (by simp [hf])]
        exact List.mem_map_of_mem _ (by rw [hf]; simp)
    · simpa using hs
  · intro hf
    refine List.mem_flatMap.mpr ⟨s, hs, ?_⟩
    rw [if_pos hf]
    simp

/-- C8 witness: a statistics row with no matching dimension entry survives the
left join with a null label. -/
theorem merge_preserves_groups_witness :
    ((⟨1, 5, 40⟩ : GStat), (none : Option String)) ∈
      leftJoinStats [⟨1, 5, 40⟩] [] :=
  (merge_preserves_groups [⟨1, 5, 40⟩] [] ⟨1, 5, 40⟩ (by simp)).2 rfl

/-- C10: in both the per-state and the per-education loops, a record is
emitted for a dimension code exactly when the code has at least one row in the
internet-valid subset and at least one row in the smartphone-valid subset. -/
theorem analysis_emission_iff :
    ∀ (fact : List ARow) (dimCodes : List Int) (c : Int), c ∈ dimCodes →
      ((∃ s ∈ stateStats fact dimCodes, s.statefip = c) ↔
        (((validInternet fact).filter fun r => r.statefip == c) ≠ [] ∧
          ((validSmartphone fact).filter fun r => r.statefip == c) ≠ [])) ∧
      ((∃ s ∈ educStats fact dimCodes, s.educ = c) ↔
        (((validInternet fact).filter fun r => r.educ == c) ≠ [] ∧
          ((validSmartphone fact).filter fun r => r.educ == c) ≠ [])) := by
  intro fact dimCodes c hc
  constructor
  · constructor
    · rintro ⟨s, hs, hsc⟩
      rcases List.mem_filterMap.mp hs with ⟨c2, _, hsome⟩
      split at hsome
      · exact absurd hsome (by simp)
      · rename_i hcond
        rw [Option.some.injEq] at hsome
        subst hsome
        simp only [Bool.or_eq_true, List.isEmpty_iff, not_or] at hcond
        have hc2 : c2 = c := hsc
        subst hc2
        exact hcond
    · rintro ⟨h1, h2⟩
      refine ⟨⟨c,
        calculateWeightedPercentage
          ((validInternet fact).filter fun r => r.statefip == c) ARow.cinethh 1,
        calculateWeightedPercentage
          ((validSmartphone fact).filter fun r => r.statefip == c) ARow.cismrtphn 1,
        (((validInternet fact).filter fun r => r.statefip == c).map ARow.perwt).sum⟩,
        List.mem_filterMap.mpr ⟨c, hc, ?_⟩, rfl⟩
      rw [if_neg]
      simp only [Bool.or_eq_true, List.isEmpty_iff, not_or]
      exact ⟨h1, h2⟩
  · constructor
    · rintro ⟨s, hs, hsc⟩
      rcases List.mem_filterMap.mp hs with ⟨c2, _, hsome⟩
      split at hsome
      · exact absurd hsome (by simp)
      · rename_i hcond
        rw [Option.some.injEq] at hsome
        subst hsome
        simp only [Bool.or_eq_true, List.isEmpty_iff, not_or] at hcond
        have hc2 : c2 = c := hsc
        subst hc2
        exact hcond
    · rintro ⟨h1, h2⟩
      refine ⟨⟨c,
        calculateWeightedPercentage
          ((validInternet fact).filter fun r => r.educ == c) ARow.cinethh 1,
        calculateWeightedPercentage
          ((validSmartphone fact).filter fun r => r.educ == c) ARow.cismrtphn 1,
        (((validInternet fact).filter fun r => r.educ == c).map ARow.perwt).sum⟩,
        List.mem_filterMap.mpr
          ⟨c, (List.perm_insertionSort _ _).mem_iff.mpr hc, ?_⟩, rfl⟩
      rw [if_neg]
      simp only [Bool.or_eq_true, List.isEmpty_iff, not_or]
      exact ⟨h1, h2⟩

/-- C10 witness: a one-row fact relation valid for both conditions makes the
state loop emit a record for its state code. -/
theorem analysis_emission_iff_witness :
    ∃ s ∈ stateStats [⟨1, 1, 2, 1, 1⟩] [1], s.statefip = 1 :=
  ((analysis_emission_iff [⟨1, 1, 2, 1, 1⟩] [1] 1 (by simp)).1).mpr
    ⟨by decide, by decide⟩

/-! Facts about the quantile bucketizer. -/

theorem getD_mem_of_lt {l : List ℚ} {n : ℕ} (h : n < l.length) (d : ℚ) :
    l.getD n d ∈ l := by
  rw [List.getD_eq_getElem?_getD, List.getElem?_eq_getElem h]
  exact List.getElem_mem h

theorem le_getD_last_of_sorted :
    ∀ l : List ℚ, l.Sorted (· ≤ ·) → ∀ v ∈ l, v ≤ l.getD (l.length - 1) 0 := by
  intro l
  induction l with
  | nil => intro _ v hv; simp at hv
  | cons x xs ih =>
    intro hs v hv
    rcases List.sorted_cons.mp hs with ⟨hx, hxs⟩
    cases xs with
    | nil =>
      rcases List.mem_singleton.mp hv with rfl
      simp [List.getD]
    | cons y ys =>
      have hgd : (x :: y :: ys : List ℚ).getD ((x :: y :: ys : List ℚ).length - 1) 0
          = (y :: ys : List ℚ).getD ((y :: ys : List ℚ).length - 1) 0 := by
        simp [List.getD_cons_succ]
      rw [hgd]
      rcases List.mem_cons.mp hv with rfl | hv2
      · have hmem : (y :: ys : List ℚ).getD ((y :: ys : List ℚ).length - 1) 0
            ∈ (y :: ys : List ℚ) :=
          getD_mem_of_lt (by simp) 0
        exact hx _ hmem
      · exact ih hxs v hv2

theorem qcutEdges_getD_seven (pos : List ℚ) :
    (qcutEdges pos).getD 7 0 =
      (List.insertionSort (· ≤ ·) pos).getD
        ((List.insertionSort (· ≤ ·) pos).length - 1) 0 := by
  have h7 : (qcutEdges pos).getD 7 0 =
      quantileEdge (List.insertionSort (· ≤ ·) pos) 7 7 := rfl
  rw [h7]
  unfold quantileEdge
  rw [Nat.mul_div_cancel_left _ (by norm_num : 0 < 7), Nat.mul_mod_right]
  push_cast
  ring

theorem findSome?_zip_le {v : ℚ} :
    ∀ (es : List ℚ) (ls : List String), es.length = ls.length →
      (∃ e ∈ es, v ≤ e) →
      ∃ l ∈ ls, (es.zip ls).findSome?
        (fun p => if v ≤ p.1 then some p.2 else none) = some l := by
  intro es
  induction es with
  | nil => intro ls _ hex; simp at hex
  | cons e et ih =>
    intro ls hlen hex
    cases ls with
    | nil => simp at hlen
    | cons l lt =>
      by_cases hv : v ≤ e
      · exact ⟨l, by simp, by simp [List.findSome?_cons, hv]⟩
      · have hex2 : ∃ e2 ∈ et, v ≤ e2 := by
          rcases hex with ⟨e2, he2, hve2⟩
          rcases List.mem_cons.mp he2 with rfl | he3
          · exact absurd hve2 hv
          · exact ⟨e2, he3, hve2⟩
        rcases ih lt (by simpa using hlen) hex2 with ⟨l2, hl2, hfind⟩
        exact ⟨l2, by simp [hl2], by simp [List.findSome?_cons, hv, hfind]⟩

theorem qcutAssign_mem {pos : List ℚ} {v : ℚ} (hv : v ∈ pos) :
    ∃ l ∈ qcutLabels, qcutAssign (qcutEdges pos) v = some l := by
  have hvs : v ∈ List.insertionSort (· ≤ ·) pos :=
    (List.perm_insertionSort _ _).mem_iff.mpr hv
  have hvle : v ≤ (List.insertionSort (· ≤ ·) pos).getD
      ((List.insertionSort (· ≤ ·) pos).length - 1) 0 :=
    le_getD_last_of_sorted _ (List.sorted_insertionSort _ _) v hvs
  have hmem : (qcutEdges pos).getD 7 0 ∈ (qcutEdges pos).tail := by
    show quantileEdge (List.insertionSort (· ≤ ·) pos) 7 7 ∈
      [quantileEdge (List.insertionSort (· ≤ ·) pos) 1 7,
       quantileEdge (List.insertionSort (· ≤ ·) pos) 2 7,
       quantileEdge (List.insertionSort (· ≤ ·) pos) 3 7,
       quantileEdge (List.insertionSort (· ≤ ·) pos) 4 7,
       quantileEdge (List.insertionSort (· ≤ ·) pos) 5 7,
       quantileEdge (List.insertionSort (· ≤ ·) pos) 6 7,
       quantileEdge (List.insertionSort (· ≤ ·) pos) 7 7]
    simp
  have hlen : ((qcutEdges pos).tail).length = qcutLabels.length := rfl
  have hex : ∃ e ∈ (qcutEdges pos).tail, v ≤ e :=
    ⟨(qcutEdges pos).getD 7 0, hmem, by rw [qcutEdges_getD_seven]; exact hvle⟩
  exact findSome?_zip_le _ _ hlen hex

/-- C5 (amended): income bucketing clips every value at zero and sends every
nonpositive income to the `No Income` bucket; with no positive value every row
is `No Income`; when the seven quantile edges of the positive subset are
pairwise distinct every positive row receives one of the seven quantile
labels; and when duplicate quantile edges appear, `pd.qcut` raises (its fixed
7-label list no longer matches the bins) and every row is assigned from the
fixed negative-to-infinity fallback bands instead — duplicate boundaries are
never collapsed into fewer quantile buckets. -/
theorem createIncomeBuckets_spec :
    (∀ incomes : List ℚ, (createIncomeBuckets incomes).length = incomes.length) ∧
    (∀ (incomes : List ℚ) (i : ℕ) (v : ℚ), incomes[i]? = some v → v ≤ 0 →
      (createIncomeBuckets incomes)[i]? = some "No Income") ∧
    (∀ incomes : List ℚ, (∀ v ∈ incomes, v ≤ 0) →
      createIncomeBuckets incomes = incomes.map fun _ => "No Income") ∧
    (∀ incomes : List ℚ, posOf incomes ≠ [] →
      strictlyIncreasing (qcutEdges (posOf incomes)) = false →
      createIncomeBuckets incomes = incomes.map fun v => fallbackBand (max v 0)) ∧
    (∀ (incomes : List ℚ) (i : ℕ) (v : ℚ), incomes[i]? = some v → 0 < v →
      strictlyIncreasing (qcutEdges (posOf incomes)) = true →
      ∃ l ∈ qcutLabels, (createIncomeBuckets incomes)[i]? = some l) := by
  refine ⟨?_, ?_, ?_, ?_, ?_⟩
  · intro incomes
    unfold createIncomeBuckets
    split
    · simp
    · split <;> simp
  · intro incomes i v hiv hv
    unfold createIncomeBuckets
    split
    · simp [List.getElem?_map, hiv]
    · split
      · simp only [List.getElem?_map, hiv, Option.map_some']
        rw [max_eq_right hv]
        simp
      · simp only [List.getElem?_map, hiv, Option.map_some']
        rw [max_eq_right hv]
        simp [fallbackBand]
  · intro incomes hall
    have hpos : posOf incomes = [] := by
      rw [posOf, List.filter_eq_nil_iff]
      intro a ha
      rcases List.mem_map.mp ha with ⟨v, hv, rfl⟩
      simp [max_eq_right (hall v hv)]
    unfold createIncomeBuckets
    rw [hpos]
    simp [List.map_map, Function.comp_def]
  · intro incomes hpos hstrict
    unfold createIncomeBuckets
    rw [if_neg (by simp [List.isEmpty_iff, hpos]), if_neg (by simp [hstrict]),
      List.map_map]
    simp [Function.comp_def]
  · intro incomes i v hiv hvpos hstrict
    have hvmem : v ∈ incomes := by
      rcases List.getElem?_eq_some_iff.mp hiv with ⟨hlt, rfl⟩
      exact List.getElem_mem hlt
    have hvclip : max v 0 = v := max_eq_left (le_of_lt hvpos)
    have hvp : v ∈ posOf incomes := by
      rw [posOf]
      refine List.mem_filter.mpr ⟨List.mem_map.mpr ⟨v, hvmem, hvclip⟩, by simp [hvpos]⟩
    rcases qcutAssign_mem hvp with ⟨l, hl, hassign⟩
    refine ⟨l, hl, ?_⟩
    unfold createIncomeBuckets
    rw [if_neg (by simp [List.isEmpty_iff, List.ne_nil_of_mem hvp]), if_pos hstrict]
    simp only [List.getElem?_map, hiv, Option.map_some']
    rw [hvclip, if_neg (ne_of_gt hvpos), hassign]
    rfl

/-- C5 witness: a nonpositive income receives the `No Income` bucket. -/
theorem createIncomeBuckets_spec_witness :
    (createIncomeBuckets [(-3 : ℚ)])[0]? = some "No Income" :=
  createIncomeBuckets_spec.2.1 [(-3 : ℚ)] 0 (-3) rfl (by norm_num)

/-- C5 counterexample: sixteen incomes whose positive part has exactly the
seven distinct values 1..7 still produce duplicate quantile edges, and every
row is assigned from the fallback bands — the positive rows all get
`Very Low`, which is not one of the seven quantile labels, so duplicate
boundaries are not collapsed into fewer quantile buckets as claimed. -/
theorem income_bucket_counterexample :
    createIncomeBuckets ([1, 1, 1, 1, 1, 1, 1, 1, 1, 1, 2, 3, 4, 5, 6, 7] : List ℚ) =
      List.replicate 16 "Very Low" ∧
    ([1, 2, 3, 4, 5, 6, 7] : List ℚ).Nodup ∧
    posOf ([1, 1, 1, 1, 1, 1, 1, 1, 1, 1, 2, 3, 4, 5, 6, 7] : List ℚ) =
      [1, 1, 1, 1, 1, 1, 1, 1, 1, 1, 2, 3, 4, 5, 6, 7] ∧
    ¬ ("Very Low" ∈ qcutLabels) := by
  refine ⟨?_, by norm_num, ?_, by decide⟩
  · have hr : List.range 8 = [0, 1, 2, 3, 4, 5, 6, 7] := rfl
    norm_num [hr, createIncomeBuckets, posOf, qcutEdges, quantileEdge,
      strictlyIncreasing, qcutAssign, fallbackBand, qcutLabels,
      List.insertionSort, List.orderedInsert, List.dedup, List.replicate,
      List.getD]
  · norm_num [posOf]

end ACS
